import Mathlib

/-!
Verification of the molecular-formula parser, molecule model and interference
search of the interference_calculator repository.

The embedding follows the most evolved implementation, which is the one the
package entry point uses: `interference_calculator/molecule.py` (class
`Molecule`) and `main.py` (`interference`).  The pyparsing grammars of
`molecule.py` are embedded as character-level parsers with pyparsing's
semantics (greedy tokens, whitespace skipping disabled inside `Combine`,
alternatives tried in order, no backtracking into a succeeded `Optional`
within a sequence).  Floating point numbers are embedded as rationals.
-/

deriving instance DecidableEq for Except

namespace IC

/-! ## Rational arithmetic

The embedding computes with ℚ through the wrappers below, which are plain
(kernel-reducible) definitions on numerator and denominator; each is proved
equal to the corresponding field operation of ℚ. -/

def qadd (a b : ℚ) : ℚ := Rat.divInt (a.num * b.den + b.num * a.den) (a.den * b.den)

def qmul (a b : ℚ) : ℚ := Rat.divInt (a.num * b.num) (a.den * b.den)

def qsub (a b : ℚ) : ℚ := Rat.divInt (a.num * b.den - b.num * a.den) (a.den * b.den)

def qneg (a : ℚ) : ℚ := Rat.divInt (-a.num) a.den

def qdiv (a b : ℚ) : ℚ := Rat.divInt (a.num * b.den) (a.den * b.num)

/-- Python `**` on a rational base and a natural exponent. -/
def qpow (a : ℚ) : Nat → ℚ
  | 0 => 1
  | n + 1 => qmul (qpow a n) a

/-- Python `abs` on ℚ. -/
def qabs (d : ℚ) : ℚ := if d < 0 then qneg d else d

/-- Left-fold sum, as the accumulation loops and `DataFrame.sum` compute it. -/
def qsum (l : List ℚ) : ℚ := l.foldl qadd 0

/-- Left-fold product, as `numpy.prod` and `Series.prod` compute it. -/
def qlistProd (l : List ℚ) : ℚ := l.foldl qmul 1

/-! ## Character classes and low-level scanning (pyparsing token semantics) -/

def isUpperAZ (c : Char) : Bool := 'A' ≤ c && c ≤ 'Z'

def isLowerAZ (c : Char) : Bool := 'a' ≤ c && c ≤ 'z'

def isDigit09 (c : Char) : Bool := '0' ≤ c && c ≤ '9'

/-- Character class `pp.alphanums`. -/
def isAlnum (c : Char) : Bool := isUpperAZ c || isLowerAZ c || isDigit09 c

/-- Default pyparsing whitespace characters (`ParserElement.DEFAULT_WHITE_CHARS`). -/
def isWsChar (c : Char) : Bool := c = ' ' || c = '\n' || c = '\t'

/-- Characters removed by Python's `str.strip()` at both ends. -/
def isPyWs (c : Char) : Bool :=
  c = ' ' || c = '\t' || c = '\n' || c = '\r' || c = '\x0b' || c = '\x0c'

def skipWs (s : List Char) : List Char := s.dropWhile isWsChar

/-- Python `str.strip()`. -/
def pyStrip (s : List Char) : List Char :=
  ((s.dropWhile isPyWs).reverse.dropWhile isPyWs).reverse

/-- Numeric value of a run of decimal digit characters (Python `int` on digits). -/
def natOfDigits (ds : List Char) : Nat :=
  ds.foldl (fun a c => 10 * a + (c.toNat - 48)) 0

/-- Python `int(s)` restricted to what can reach it here: succeeds exactly on a
nonempty all-digit string. -/
def pyIntOfString (s : String) : Option Nat :=
  if s.toList ≠ [] ∧ s.toList.all isDigit09 then some (natOfDigits s.toList) else none

/-- Python `str.strip(set)`: remove the characters of `set` from both ends. -/
def pyStripChars (set : List Char) (s : List Char) : List Char :=
  ((s.dropWhile (set.contains ·)).reverse.dropWhile (set.contains ·)).reverse

/-- Token `pp.Word(pp.nums)`: skip leading whitespace, then a nonempty greedy
run of digits.  On failure the input is returned untouched. -/
def pNum (s : List Char) : Option (List Char × List Char) :=
  let s' := skipWs s
  let ds := s'.takeWhile isDigit09
  if ds.isEmpty then none else some (ds, s'.drop ds.length)

/-- Token `pp.Optional(pp.Word(pp.nums))`. -/
def pOptNum (s : List Char) : Option (List Char) × List Char :=
  match pNum s with
  | some (ds, r) => (some ds, r)
  | none => (none, s)

/-- Token `_element = pp.Combine(Word(upper, exact=1) + Optional(Word(lower, max=2)))`.
`Combine` disables whitespace skipping, so the element must start at the
current position and its letters are adjacent. -/
def pElement (s : List Char) : Option (String × List Char) :=
  match s with
  | [] => none
  | c :: rest =>
    if isUpperAZ c then
      let lows := (rest.takeWhile isLowerAZ).take 2
      some (String.mk (c :: lows), rest.drop lows.length)
    else none

/-- One parsed unit of either grammar: optional atomic-mass token (kept as the
matched string, `""` when absent, as pyparsing's `ParseResults` does), element
symbol, optional count. -/
structure ParsedUnit where
  atomicMass : String
  element : String
  count : Option Nat
deriving DecidableEq

/-- Parsed charge part: `sign` is `""` when absent, otherwise one of
`"o"`, `"0"`, `"+"`, `"-"`; `count` is the optional magnitude token. -/
structure ChargeRes where
  sign : String
  count : Option Nat
deriving DecidableEq

/-- Token `_neutral = pp.oneOf('o 0')` (whitespace-skipping). -/
def pNeutral (s : List Char) : Option (String × List Char) :=
  match skipWs s with
  | 'o' :: r => some ("o", r)
  | '0' :: r => some ("0", r)
  | _ => none

/-- Token `_charged = pp.oneOf('+ -')` (whitespace-skipping). -/
def pCharged (s : List Char) : Option (String × List Char) :=
  match skipWs s with
  | '+' :: r => some ("+", r)
  | '-' :: r => some ("-", r)
  | _ => none

/-- The charge alternative `_neutral | _opt_int + _charged` (a pyparsing
`MatchFirst`: the neutral branch is tried first). -/
def pChargeInner (s : List Char) : Option (ChargeRes × List Char) :=
  match pNeutral s with
  | some (sg, r) => some ({ sign := sg, count := none }, r)
  | none =>
    let (ds, s1) := pOptNum s
    match pCharged s1 with
    | some (sg, r) => some ({ sign := sg, count := ds.map natOfDigits }, r)
    | none => none

/-- `pp.OneOrMore` of a unit parser: repeat greedily; a failed attempt restores
the position after the last success.  Fuel bounds the recursion; every unit
parser consumes at least one character, so `s.length + 1` fuel is exhaustive. -/
def manyUnits (p : List Char → Option (ParsedUnit × List Char)) :
    Nat → List Char → List ParsedUnit × List Char
  | 0, s => ([], s)
  | fuel + 1, s =>
    match p s with
    | none => ([], s)
    | some (u, r) =>
      let (us, r') := manyUnits p fuel r
      (u :: us, r')

/-! ### Molecular (empirical) notation, `_mn_molecule` -/

/-- One unit of the molecular grammar:
`Optional(Combine('[' + Word(nums) + ']')) + element + Optional(Word(nums))`.
The bracketed atomic mass is a `Combine`, so its parts are adjacent and it
starts at the current position; the count token skips whitespace. -/
def pMnUnit (s : List Char) : Option (ParsedUnit × List Char) :=
  let (am, s1) :=
    match s with
    | '[' :: r =>
      let ds := r.takeWhile isDigit09
      if ds.isEmpty then (none, s)
      else
        match r.drop ds.length with
        | ']' :: r2 => (some (String.mk ds), r2)
        | _ => (none, s)
    | _ => (none, s)
  match pElement s1 with
  | none => none
  | some (el, s2) =>
    let (ct, s3) := pOptNum s2
    some ({ atomicMass := am.getD "", element := el, count := ct.map natOfDigits }, s3)

/-- The molecular-notation charge `Optional('[' + (neutral | int + sign) + ']')`.
If anything after a matched `[` fails, the whole optional part matches empty. -/
def pMnCharge (s : List Char) : ChargeRes × List Char :=
  match skipWs s with
  | '[' :: r =>
    (match pChargeInner r with
     | some (ch, r2) =>
       (match skipWs r2 with
        | ']' :: r3 => (ch, r3)
        | _ => ({ sign := "", count := none }, s))
     | none => ({ sign := "", count := none }, s))
  | _ => ({ sign := "", count := none }, s)

/-- `_mn_molecule.parseString(s, parseAll=True)`. -/
def mnParse (s : List Char) : Option (List ParsedUnit × ChargeRes) :=
  match manyUnits pMnUnit (s.length + 1) s with
  | ([], _) => none
  | (us, r) =>
    let (ch, r2) := pMnCharge r
    if (skipWs r2).isEmpty then some (us, ch) else none

/-! ### Isotope notation, `_in_molecule` (after delimiter normalization) -/

/-- A delimiter for `_in_delimiter = pp.CharsNotIn(pp.alphanums + '+-')`. -/
def isDelim (c : Char) : Bool := !(isAlnum c || c = '+' || c = '-')

/-- `_in_delimiter.transformString`, processed character by character; the
flag records whether the previous character belonged to a delimiter run. -/
def transformAux : Bool → List Char → List Char
  | _, [] => []
  | prevDelim, c :: cs =>
    if isDelim c then
      if prevDelim then transformAux true cs
      else ',' :: transformAux true cs
    else c :: transformAux false cs

/-- `_in_delimiter.transformString`: every maximal run of delimiter characters
is replaced by a single comma. -/
def transformDelims (s : List Char) : List Char := transformAux false s

/-- One unit of the isotope grammar:
`Optional(Word(nums)) + element + Optional(Word(nums)) + Optional(Suppress(','))`. -/
def pInUnit (s : List Char) : Option (ParsedUnit × List Char) :=
  let (am, s1) := pOptNum s
  match pElement s1 with
  | none => none
  | some (el, s2) =>
    let (ct, s3) := pOptNum s2
    let s4 :=
      match skipWs s3 with
      | ',' :: r => r
      | _ => s3
    some ({ atomicMass := (am.map String.mk).getD "", element := el,
            count := ct.map natOfDigits }, s4)

/-- `_in_molecule.parseString(s, parseAll=True)` on the delimiter-normalized
string. -/
def inParse (s : List Char) : Option (List ParsedUnit × ChargeRes) :=
  match manyUnits pInUnit (s.length + 1) s with
  | ([], _) => none
  | (us, r) =>
    let (ch, r2) :=
      match pChargeInner r with
      | some (c, r') => (c, r')
      | none => ({ sign := "", count := none }, r)
    if (skipWs r2).isEmpty then some (us, ch) else none

/-- The grammar dispatch of `Molecule.parse`: try molecular notation on the
stripped input; on a `ParseException` normalize delimiters and try isotope
notation. -/
def grammarParse (s : List Char) : Option (List ParsedUnit × ChargeRes) :=
  match mnParse s with
  | some r => some r
  | none => inParse (transformDelims s)

/-! ## The isotope reference table -/

/-- One row of `periodic_table.csv` (columns taken from
`update_periodic_table.py`: atomic number, element, major isotope, isotope,
atomic mass, mass, abundance). -/
structure IsoRow where
  atomic_number : Nat
  element : String
  major_isotope : String
  isotope : String
  atomic_mass : Nat
  mass : ℚ
  abundance : ℚ
deriving DecidableEq

/-- Modelled from the spec: the data file `periodic_table.csv` is not under
src/ (only the script `update_periodic_table.py` that regenerates it is).
Following that script, rows are ordered by atomic number then atomic mass,
`isotope` is the concatenation of the atomic-mass number and the element
symbol, and `major isotope` is the isotope of highest abundance of the
element.  The entries model the elements used by the spec's worked examples
(H, C, N, O, Si) with the abundance values the spec quotes for oxygen
(p(16O)=0.9976, p(18O)=0.00205) and CIAAW-style values for the rest. -/
def periodic_table : List IsoRow :=
  [ { atomic_number := 1, element := "H", major_isotope := "1H", isotope := "1H",
      atomic_mass := 1, mass := mkRat 10078250 10000000, abundance := mkRat 99988 100000 },
    { atomic_number := 1, element := "H", major_isotope := "1H", isotope := "2H",
      atomic_mass := 2, mass := mkRat 20141018 10000000, abundance := mkRat 12 100000 },
    { atomic_number := 6, element := "C", major_isotope := "12C", isotope := "12C",
      atomic_mass := 12, mass := 12, abundance := mkRat 9893 10000 },
    { atomic_number := 6, element := "C", major_isotope := "12C", isotope := "13C",
      atomic_mass := 13, mass := mkRat 130033548 10000000, abundance := mkRat 107 10000 },
    { atomic_number := 7, element := "N", major_isotope := "14N", isotope := "14N",
      atomic_mass := 14, mass := mkRat 140030740 10000000, abundance := mkRat 99636 100000 },
    { atomic_number := 7, element := "N", major_isotope := "14N", isotope := "15N",
      atomic_mass := 15, mass := mkRat 150001089 10000000, abundance := mkRat 364 100000 },
    { atomic_number := 8, element := "O", major_isotope := "16O", isotope := "16O",
      atomic_mass := 16, mass := mkRat 159949146 10000000, abundance := mkRat 9976 10000 },
    { atomic_number := 8, element := "O", major_isotope := "16O", isotope := "17O",
      atomic_mass := 17, mass := mkRat 169991317 10000000, abundance := mkRat 38 100000 },
    { atomic_number := 8, element := "O", major_isotope := "16O", isotope := "18O",
      atomic_mass := 18, mass := mkRat 179991610 10000000, abundance := mkRat 205 100000 },
    { atomic_number := 14, element := "Si", major_isotope := "28Si", isotope := "28Si",
      atomic_mass := 28, mass := mkRat 279769265 10000000, abundance := mkRat 92223 100000 },
    { atomic_number := 14, element := "Si", major_isotope := "28Si", isotope := "29Si",
      atomic_mass := 29, mass := mkRat 289764947 10000000, abundance := mkRat 4685 100000 },
    { atomic_number := 14, element := "Si", major_isotope := "28Si", isotope := "30Si",
      atomic_mass := 30, mass := mkRat 299737701 10000000, abundance := mkRat 3092 100000 } ]

/-- CODATA 2014 electron mass, the literal `mass_electron = 0.0005485799090`
of `molecule.py`. -/
def mass_electron : ℚ := mkRat 5485799090 10000000000000

/-! ## Errors

The exceptions the code can actually raise.  `formatError` models the
`FormatError` class that exists only in the legacy `masstable.py` module; the
current `molecule.py` has no such class. -/

inductive Err where
  /-- pyparsing `ParseException`: neither grammar consumed the whole input. -/
  | parseException
  /-- pandas `IndexError` from `.iloc[0]` on an empty selection (unknown
  element or unknown isotope). -/
  | indexError
  /-- Python `ValueError` (pandas length-mismatch column assignment, a failed
  `int()`, or an invalid argument check). -/
  | valueError
  /-- `masstable.FormatError` (legacy module only). -/
  | formatError
deriving DecidableEq

/-! ## Molecule.parse -/

/-- One merged entry of the `data` dict of `Molecule.parse`: keyed by `label`,
the concatenation of the atomic-mass token and the element token. -/
structure MUnit where
  label : String
  atomicMass : String
  element : String
  count : Nat
deriving DecidableEq

/-- Insert one parsed unit into the `data` dict: a new label is appended, a
repeated label has its count incremented by `int(unit.get('count', 1))`. -/
def addUnit (data : List MUnit) (u : ParsedUnit) : List MUnit :=
  let label := u.atomicMass ++ u.element
  if data.any (·.label = label) then
    data.map (fun d =>
      if d.label = label then { d with count := d.count + u.count.getD 1 } else d)
  else
    data ++ [{ label := label, atomicMass := u.atomicMass, element := u.element,
               count := u.count.getD 1 }]

def mergeUnits (us : List ParsedUnit) : List MUnit := us.foldl addUnit []

/-- Python string comparison: lexicographic on code points. -/
def strLeAux : List Char → List Char → Bool
  | [], _ => true
  | _ :: _, [] => false
  | a :: as, b :: bs =>
    if a.toNat < b.toNat then true
    else if b.toNat < a.toNat then false
    else strLeAux as bs

def pyStrLe (a b : String) : Bool := strLeAux a.toList b.toList

/-- Python's `sorted(data.keys())` iteration order: the merged entries sorted
by label (string order on code points). -/
def sortedMerge (us : List ParsedUnit) : List MUnit :=
  (mergeUnits us).insertionSort (fun a b => pyStrLe a.label b.label = true)

/-- Resolve one merged unit to `(atomic mass number, element)`:
the `D` alias becomes 2H, an explicit atomic-mass token is converted with
`int`, and a missing atomic mass is replaced by the element's major isotope
looked up in the periodic table (`.iloc[0]` on an empty selection raises
`IndexError`; `int(major.strip(element))` extracts its mass number). -/
def resolveUnit (T : List IsoRow) (d : MUnit) : Except Err (Nat × String) :=
  if d.element = "D" then .ok (2, "H")
  else if d.atomicMass ≠ "" then
    match pyIntOfString d.atomicMass with
    | some n => .ok (n, d.element)
    | none => .error .valueError
  else
    match T.find? (·.element = d.element) with
    | none => .error .indexError
    | some row =>
      match pyIntOfString
          (String.mk (pyStripChars d.element.toList row.major_isotope.toList)) with
      | some n => .ok (n, d.element)
      | none => .error .valueError

def resolveUnits (T : List IsoRow) : List MUnit → Except Err (List (Nat × String))
  | [] => .ok []
  | d :: ds =>
    match resolveUnit T d with
    | .error e => .error e
    | .ok p =>
      match resolveUnits T ds with
      | .error e => .error e
      | .ok ps => .ok (p :: ps)

/-- Look up each isotope key in the periodic table, first matching row;
an empty selection raises `IndexError`. -/
def lookupRows (T : List IsoRow) : List String → Except Err (List IsoRow)
  | [] => .ok []
  | i :: is =>
    match T.find? (·.isotope = i) with
    | none => .error .indexError
    | some r =>
      match lookupRows T is with
      | .error e => .error e
      | .ok rs => .ok (r :: rs)

/-- Sum of mass × count over the zipped lists (the mass accumulation loop). -/
def sumProd (ms : List ℚ) (cs : List Nat) : ℚ :=
  qsum ((ms.zip cs).map (fun p => qmul p.1 (p.2 : ℚ)))

/-- The state of a parsed `Molecule` object. -/
structure Molecule where
  input : String
  mass : ℚ
  abundance : ℚ
  charge : Nat
  chargesign : String
  elements : List String
  isotopes : List String
  counts : List Nat
  atomic_numbers : List Nat
  atomic_masses : List Nat
  masses : List ℚ
  abundances : List ℚ
  molecular_formula : String
deriving DecidableEq

/-- The field values set by `Molecule.__init__` before `parse` runs; for a
falsy (empty) input string `parse` returns immediately and these survive. -/
def Molecule.init (input : String) : Molecule :=
  { input := input, mass := 0, abundance := 1, charge := 0, chargesign := "",
    elements := [], isotopes := [], counts := [], atomic_numbers := [],
    atomic_masses := [], masses := [], abundances := [], molecular_formula := "" }

/-- `Molecule.parse`: grammar dispatch, merging by label, sorted resolution,
table lookups, mass summation and electron-mass charge correction. -/
def Molecule.parse (T : List IsoRow) (input : String) : Except Err Molecule :=
  if input = "" then .ok (Molecule.init input)
  else
    let s := pyStrip input.toList
    match grammarParse s with
    | none => .error .parseException
    | some (us, ch) =>
      let merged := sortedMerge us
      match resolveUnits T merged with
      | .error e => .error e
      | .ok resolved =>
        let atomic_masses := resolved.map (·.1)
        let elements := resolved.map (·.2)
        let isotopes := resolved.map (fun p => toString p.1 ++ p.2)
        let counts := merged.map (·.count)
        match lookupRows T isotopes with
        | .error e => .error e
        | .ok rows =>
          let masses := rows.map (·.mass)
          let mass0 := sumProd masses counts
          let chargesign := ch.sign
          let charge :=
            if chargesign = "o" ∨ chargesign = "0" ∨ chargesign = "" then 0
            else ch.count.getD 1
          let mass :=
            if chargesign = "+" then qsub mass0 (qmul mass_electron (charge : ℚ))
            else if chargesign = "-" then qadd mass0 (qmul mass_electron (charge : ℚ))
            else mass0
          .ok { input := input, mass := mass, abundance := 1, charge := charge,
                chargesign := chargesign, elements := elements,
                isotopes := isotopes, counts := counts,
                atomic_numbers := rows.map (·.atomic_number),
                atomic_masses := atomic_masses, masses := masses,
                abundances := rows.map (·.abundance), molecular_formula := "" }

/-! ## Molecule.relative_abundance -/

/-- Distinct values in first-appearance order (the keys of
`value_counts().to_dict()`; the dict's own ordering is by count, but the
product over groups does not depend on it). -/
def firstDedup (l : List String) : List String :=
  l.foldl (fun acc x => if acc.contains x then acc else acc ++ [x]) []

/-- The multinomial group probability of `relative_abundance` for the rows
`d` (isotope row paired with its assigned count) of one parent element:
`p^n` when the group has a single row, otherwise
`n!/(c_1!…c_k!) · (p_1^c_1 … p_k^c_k)`. -/
def groupAbundance (d : List (IsoRow × Nat)) : ℚ :=
  let n := (d.map (·.2)).sum
  match d with
  | [x] => qpow x.1.abundance n
  | _ =>
    qmul (qdiv (Nat.factorial n : ℚ) (qlistProd (d.map (fun x => (Nat.factorial x.2 : ℚ)))))
      (qlistProd (d.map (fun x => qpow x.1.abundance x.2)))

/-- `Molecule.relative_abundance`: select the table rows whose isotope key is
in `self.isotopes` (table order), assign `self.counts` positionally
(`data['count'] = self.counts`, a `ValueError` when the lengths differ),
group by the major-isotope column, multiply the group probabilities. -/
def relative_abundance (T : List IsoRow) (m : Molecule) : Except Err ℚ :=
  let rows := T.filter (fun r => m.isotopes.contains r.isotope)
  if rows.length ≠ m.counts.length then .error .valueError
  else
    let paired := rows.zip m.counts
    let parents := firstDedup (paired.map (·.1.major_isotope))
    .ok (qlistProd (parents.map (fun el =>
      groupAbundance (paired.filter (·.1.major_isotope = el)))))

/-! ## Molecule.formula -/

/-- A formatting template: the four `{}`-slots are embedded as functions, the
joins and the begin/end wrappers as strings. -/
structure Template where
  beginStr : String
  atomicMassF : String → String
  elementF : String → String
  countF : String → String
  chargeF : String → String
  minorjoin : String
  majorjoin : String
  minus : String
  endStr : String

def html_template : Template :=
  { beginStr := "", atomicMassF := fun s => "<sup>" ++ s ++ "</sup>",
    elementF := id, countF := fun s => "<sub>" ++ s ++ "</sub>",
    chargeF := fun s => "<sup>" ++ s ++ "</sup>",
    minorjoin := "", majorjoin := "", minus := "&ndash;", endStr := "" }

def latex_template : Template :=
  { beginStr := "$\\mathrm\x7b",
    atomicMassF := fun s => "\x7b\x7d^\x7b" ++ s ++ "\x7d",
    elementF := fun s => "\x7b" ++ s ++ "\x7d",
    countF := fun s => "_\x7b" ++ s ++ "\x7d",
    chargeF := fun s => "\x7b\x7d^\x7b" ++ s ++ "\x7d",
    minorjoin := "", majorjoin := "", minus := "-", endStr := "\x7d$" }

def mhchem_template : Template :=
  { beginStr := "\\ce\x7b",
    atomicMassF := fun s => "^\x7b" ++ s ++ "\x7d",
    elementF := id, countF := id,
    chargeF := fun s => "^" ++ s,
    minorjoin := "", majorjoin := "", minus := "", endStr := "\x7d" }

def isotope_template : Template :=
  { beginStr := "", atomicMassF := id, elementF := id, countF := id,
    chargeF := id, minorjoin := "", majorjoin := " ", minus := "", endStr := "" }

def molecular_template : Template :=
  { beginStr := "", atomicMassF := fun s => "[" ++ s ++ "]",
    elementF := id, countF := id, chargeF := fun s => "[" ++ s ++ "]",
    minorjoin := "", majorjoin := "", minus := "", endStr := "" }

/-- Options of `Molecule.formula` with their Python default values. -/
structure FormulaOpts where
  style : String := "plain"
  HtoD : Bool := true
  show_charge : Bool := true
  all_isotopes : Bool := false
  template : Option Template := none

/-- The `HtoD` rewriting pass over the parallel atomic-mass-string and element
lists: mass-1 hydrogen drops its mass number, mass-2 hydrogen becomes `D`. -/
def htodFix : List (String × String) → List (String × String) :=
  List.map (fun p =>
    if p.2 = "H" then
      if p.1 = "1" then ("", "H")
      else if p.1 = "2" then ("", "D")
      else p
    else p)

/-- The style dispatch of `Molecule.formula`: select the fixed template for a
known style name, require a caller template for `custom`, and raise
`ValueError` otherwise. -/
def styleTemplate (o : FormulaOpts) : Except Err Template :=
  if o.style = "html" then .ok html_template
  else if o.style = "latex" then .ok latex_template
  else if o.style = "mhchem" then .ok mhchem_template
  else if o.style = "molecular" then .ok molecular_template
  else if o.style = "plain" ∨ o.style = "isotope" then .ok isotope_template
  else if o.style = "custom" then
    match o.template with
    | some t => .ok t
    | none => .error .valueError
  else .error .valueError

/-- `Molecule.formula`: build the per-unit strings (suppressing the atomic
mass of major isotopes unless `all_isotopes`), join them, and append the
charge string.  Unknown styles and a custom style without a template raise
`ValueError`. -/
def Molecule.formula (T : List IsoRow) (m : Molecule) (o : FormulaOpts) :
    Except Err String :=
  let elem := m.elements
  let amass := m.atomic_masses.map toString
  let count := m.counts.map (fun c => if c > 1 then toString c else "")
  let pairs := amass.zip elem
  let pairs := if o.HtoD then htodFix pairs else pairs
  match styleTemplate o with
  | .error e => .error e
  | .ok templ =>
    let charge :=
      if o.show_charge then
        let chargesign :=
          if m.chargesign = "-" ∧ templ.minus ≠ "" then templ.minus
          else m.chargesign
        if m.charge = 0 then ""
        else if m.charge = 1 then chargesign
        else toString m.charge ++ chargesign
      else ""
    let units := (pairs.zip count).map (fun x =>
      let am := x.1.1
      let el := x.1.2
      let ct := x.2
      let amStr :=
        if am ≠ "" then
          if ¬o.all_isotopes ∧ T.any (·.major_isotope = am ++ el) then ""
          else templ.atomicMassF am
        else ""
      let elStr := templ.elementF el
      let ctStr := if ct ≠ "" then templ.countF ct else ""
      templ.minorjoin.intercalate [amStr, elStr, ctStr])
    let units := if charge ≠ "" then units ++ [templ.chargeF charge] else units
    .ok (templ.beginStr ++ templ.majorjoin.intercalate units ++ templ.endStr)

/-- `Molecule.__init__`: parse, compute the relative abundance, render the
default formula, store all three. -/
def mk_molecule (T : List IsoRow) (input : String) : Except Err Molecule :=
  match Molecule.parse T input with
  | .error e => .error e
  | .ok m =>
    match relative_abundance T m with
    | .error e => .error e
    | .ok ab =>
      match Molecule.formula T { m with abundance := ab } {} with
      | .error e => .error e
      | .ok f => .ok { m with abundance := ab, molecular_formula := f }

/-! ## The interference search (`main.py`) -/

/-- Python `float(s)`: optional surrounding whitespace and sign, then digits
with an optional fraction part and an optional exponent (at least one digit
overall; `inf`/`nan` forms are not modelled, they cannot be represented in
ℚ and never reach the claims). -/
def pyFloat? (s : String) : Option ℚ :=
  let cs := pyStrip s.toList
  let (sgn, cs) : ℚ × List Char :=
    match cs with
    | '+' :: r => (1, r)
    | '-' :: r => (-1, r)
    | _ => (1, cs)
  let ip := cs.takeWhile isDigit09
  let cs1 := cs.drop ip.length
  let (fp, cs2) : List Char × List Char :=
    match cs1 with
    | '.' :: r => (r.takeWhile isDigit09, r.drop (r.takeWhile isDigit09).length)
    | _ => ([], cs1)
  if ip.isEmpty ∧ fp.isEmpty then none
  else
    let base : ℚ := qdiv (natOfDigits (ip ++ fp) : ℚ) ((10 ^ fp.length : ℕ) : ℚ)
    match cs2 with
    | [] => some (qmul sgn base)
    | e :: r =>
      if e = 'e' ∨ e = 'E' then
        let (eneg, r) : Bool × List Char :=
          match r with
          | '+' :: r' => (false, r')
          | '-' :: r' => (true, r')
          | _ => (false, r)
        let ed := r.takeWhile isDigit09
        if ed.isEmpty ∨ ¬(r.drop ed.length).isEmpty then none
        else
          let p := qpow 10 (natOfDigits ed)
          some (if eneg then qdiv (qmul sgn base) p else qmul (qmul sgn base) p)
      else none

/-- The `target` argument: absent (`None`) or a string.  A numeric Python
argument enters the embedding as its decimal string form; truthiness of a
string is nonemptiness, matching `if target:`. -/
def TargetArg := Option String
deriving instance DecidableEq for TargetArg

def TargetArg.truthy : TargetArg → Bool
  | none => false
  | some s => s ≠ ""

/-- A candidate before charge expansion: joined isotope string and summed
neutral mass. -/
structure Row0 where
  molecule : String
  mz : ℚ
deriving DecidableEq

/-- A candidate after charge expansion. -/
structure Row1 where
  molecule : String
  charge : Int
  mz : ℚ
deriving DecidableEq

/-- A candidate with mass/charge difference and resolving power. -/
structure Row2 where
  molecule : String
  charge : Int
  mz : ℚ
  diff : ℚ
  mrp : WithTop ℚ
deriving DecidableEq

/-- One row of the returned table. -/
structure IRow where
  molecule : Option String
  charge : Int
  mz : ℚ
  diff : ℚ
  mrp : WithTop ℚ
  probability : ℚ
  target : Bool
deriving DecidableEq

/-- `itertools.combinations_with_replacement`, in itertools order: all
nondecreasing index selections of the given size.  Structured over the size so
that it reduces by iteration: for each suffix of the pool, the selections that
start with the head of that suffix. -/
def cwr : Nat → List α → List (List α)
  | 0, _ => [[]]
  | n + 1, l =>
    l.tails.flatMap (fun s =>
      match s with
      | [] => []
      | x :: xs => (cwr n (x :: xs)).map (x :: ·))

/-- The enumeration loop of `interference`: combinations with replacement of
every size from 1 to `maxsize`, sizes in ascending order. -/
def enumCombos (pool : List α) : Nat → List (List α)
  | 0 => []
  | k + 1 => enumCombos pool k ++ cwr (k + 1) pool

/-- `picked_atoms`: the table rows whose element is in the sample. -/
def pickedAtoms (T : List IsoRow) (atoms : List String) : List IsoRow :=
  T.filter (fun r => atoms.contains r.element)

/-- The isotope column of the picked rows (the pool the spec speaks of). -/
def poolIsotopes (T : List IsoRow) (atoms : List String) : List String :=
  (pickedAtoms T atoms).map (·.isotope)

/-- One pre-charge candidate row from a combination of table rows:
`' '.join` of the isotope keys and the row-wise mass sum. -/
def comboRow (c : List IsoRow) : Row0 :=
  { molecule := " ".intercalate (c.map (·.isotope)), mz := qsum (c.map (·.mass)) }

/-- A charge-0 row (`chargesign` o/0, or charge value 0 in the charge list):
charge column 0, molecule string and mass unchanged. -/
def zeroChargeRow (r : Row0) : Row1 :=
  { molecule := r.molecule, charge := 0, mz := r.mz }

/-- The nonzero-charge transformation of one row: append the charge suffix to
the molecule string, divide the mass by the charge, then subtract the electron
mass for `'+'` and add it otherwise. -/
def chargedRow (chargesign : String) (ch : Int) (r : Row0) : Row1 :=
  { molecule :=
      r.molecule ++ (if ch = 1 then " " ++ chargesign
                     else " " ++ toString ch ++ chargesign),
    charge := ch,
    mz := if chargesign = "+" then qsub (qdiv r.mz (ch : ℚ)) mass_electron
          else qadd (qdiv r.mz (ch : ℚ)) mass_electron }

/-- The charge-expansion step: for sign o/0 all rows get charge 0; otherwise
the data is repeated once per entry of the charge list. -/
def chargeExpand (chargesign : String) (charge : List Int) (rows : List Row0) :
    List Row1 :=
  if chargesign = "o" ∨ chargesign = "0" then rows.map zeroChargeRow
  else
    (charge.map (fun ch =>
      if ch = 0 then rows.map zeroChargeRow
      else rows.map (chargedRow chargesign ch))).flatten

/-- `MRP = target_mz / |diff|`, with the float division-by-zero infinity
modelled as `⊤`. -/
def mrpOf (tmz d : ℚ) : WithTop ℚ :=
  if d = 0 then ⊤ else ((qdiv tmz (qabs d) : ℚ) : WithTop ℚ)

/-- Filtering and annotation: with a truthy target keep the rows inside the
inclusive tolerance window and compute diff and MRP; without one keep
everything with diff 0 and infinite MRP. -/
def annotateRows (truthy : Bool) (tmz tr : ℚ) (rows : List Row1) : List Row2 :=
  if truthy then
    (rows.filter (fun r => qsub tmz tr ≤ r.mz ∧ r.mz ≤ qadd tmz tr)).map (fun r =>
      { molecule := r.molecule, charge := r.charge, mz := r.mz,
        diff := qsub r.mz tmz, mrp := mrpOf tmz (qsub r.mz tmz) })
  else
    rows.map (fun r =>
      { molecule := r.molecule, charge := r.charge, mz := r.mz,
        diff := 0, mrp := ⊤ })

/-- The final loop body: re-parse each molecule string with `Molecule` to get
its probability and its formula in the requested style. -/
def enrichRow (T : List IsoRow) (style : String) (r : Row2) : Except Err IRow :=
  match mk_molecule T r.molecule with
  | .error e => .error e
  | .ok m =>
    match Molecule.formula T m { style := style } with
    | .error e => .error e
    | .ok f =>
      .ok { molecule := some f, charge := r.charge, mz := r.mz, diff := r.diff,
            mrp := r.mrp, probability := m.abundance, target := false }

def enrichRows (T : List IsoRow) (style : String) :
    List Row2 → Except Err (List IRow)
  | [] => .ok []
  | r :: rs =>
    match enrichRow T style r with
    | .error e => .error e
    | .ok x =>
      match enrichRows T style rs with
      | .error e => .error e
      | .ok xs => .ok (x :: xs)

/-- Resolution of the target argument inside the truthy branch: a string that
parses as a float keeps itself as the display string with charge 0 and
probability 1; otherwise it is parsed as a molecule, taking sign and first
charge of the interference parameters as defaults and dividing the (already
electron-corrected) mass by the molecule's own charge when positive.
Returns (target_mz, target_charge, target_abun, display string). -/
def resolveTarget (T : List IsoRow) (s : String) (charge : List Int) :
    Except Err (ℚ × Int × ℚ × Option String) :=
  match pyFloat? s with
  | some q => .ok (q, 0, 1, some s)
  | none =>
    match mk_molecule T s with
    | .error e => .error e
    | .ok m =>
      match (if m.charge ≠ 0 then .ok (m.charge : Int)
             else match charge with
                  | [] => .error Err.indexError
                  | c :: _ => .ok c : Except Err Int) with
      | .error e => .error e
      | .ok tch =>
        let tmz := if m.charge > 0 then qdiv m.mass (m.charge : ℚ) else m.mass
        .ok (tmz, tch, m.abundance, some s)

/-- `interference` from `main.py`.  The charge argument is the already
normalized tuple of integers; an invalid `chargesign` raises `ValueError`.
Note that the target row is appended unconditionally. -/
def interference (T : List IsoRow) (atoms : List String) (target : TargetArg)
    (targetrange : ℚ) (maxsize : Nat) (charge : List Int) (chargesign : String)
    (style : String) : Except Err (List IRow) :=
  if ¬(chargesign = "+" ∨ chargesign = "-" ∨ chargesign = "o" ∨ chargesign = "0")
  then .error .valueError
  else
    match (if target.truthy then
             match target with
             | some s => resolveTarget T s charge
             | none => .error .valueError
           else .ok (0, 0, 0, (target : Option String))) with
    | .error e => .error e
    | .ok (tmz, tch, tab, tstr) =>
      let combos := enumCombos (pickedAtoms T atoms) maxsize
      let rows0 := combos.map comboRow
      let rows1 := chargeExpand chargesign charge rows0
      let rows2 := annotateRows target.truthy tmz targetrange rows1
      match enrichRows T style rows2 with
      | .error e => .error e
      | .ok enriched =>
        .ok (enriched ++
          [{ molecule := tstr, charge := tch, mz := tmz, diff := 0, mrp := ⊤,
             probability := tab, target := true }])

/-! ## Specification-side definitions -/

/-- Modelled from the spec (§4.2), for comparison with `relative_abundance`:
isotopes of a composition are grouped by parent element via the
`major_isotope` back-reference, each isotope key paired with its own count,
and the multinomial group probabilities are multiplied. -/
def spec_abundance (T : List IsoRow) (comp : List (String × Nat)) : ℚ :=
  let entries := comp.filterMap (fun p =>
    (T.find? (·.isotope = p.1)).map (fun r => (r, p.2)))
  let parents := firstDedup (entries.map (·.1.major_isotope))
  qlistProd (parents.map (fun el =>
    groupAbundance (entries.filter (·.1.major_isotope = el))))

/-- `Molecule.formula` as a state-passing call: the rendered string together
with the state of the receiver after the call. -/
def formulaS (T : List IsoRow) (m : Molecule) (o : FormulaOpts) :
    Except Err (String × Molecule) :=
  match Molecule.formula T m o with
  | .error e => .error e
  | .ok s => .ok (s, m)

/-! ## Lemmas bridging the computable arithmetic to the field operations of ℚ -/

theorem num_eq_mul_den (a : ℚ) : (a.num : ℚ) = a * a.den :=
  (div_eq_iff (Nat.cast_ne_zero.mpr a.den_nz)).mp (Rat.num_div_den a)

theorem qadd_eq (a b : ℚ) : qadd a b = a + b := by
  have ha : ((a.den : ℚ)) ≠ 0 := Nat.cast_ne_zero.mpr a.den_nz
  have hb : ((b.den : ℚ)) ≠ 0 := Nat.cast_ne_zero.mpr b.den_nz
  unfold qadd
  rw [Rat.divInt_eq_div]
  push_cast
  rw [div_eq_iff (mul_ne_zero ha hb), num_eq_mul_den a, num_eq_mul_den b]
  ring

theorem qmul_eq (a b : ℚ) : qmul a b = a * b := by
  have ha : ((a.den : ℚ)) ≠ 0 := Nat.cast_ne_zero.mpr a.den_nz
  have hb : ((b.den : ℚ)) ≠ 0 := Nat.cast_ne_zero.mpr b.den_nz
  unfold qmul
  rw [Rat.divInt_eq_div]
  push_cast
  rw [div_eq_iff (mul_ne_zero ha hb), num_eq_mul_den a, num_eq_mul_den b]
  ring

theorem qsub_eq (a b : ℚ) : qsub a b = a - b := by
  have ha : ((a.den : ℚ)) ≠ 0 := Nat.cast_ne_zero.mpr a.den_nz
  have hb : ((b.den : ℚ)) ≠ 0 := Nat.cast_ne_zero.mpr b.den_nz
  unfold qsub
  rw [Rat.divInt_eq_div]
  push_cast
  rw [div_eq_iff (mul_ne_zero ha hb), num_eq_mul_den a, num_eq_mul_den b]
  ring

theorem qneg_eq (a : ℚ) : qneg a = -a := by
  have ha : ((a.den : ℚ)) ≠ 0 := Nat.cast_ne_zero.mpr a.den_nz
  unfold qneg
  rw [Rat.divInt_eq_div]
  push_cast
  rw [div_eq_iff ha, num_eq_mul_den a]
  ring

theorem qdiv_eq (a b : ℚ) : qdiv a b = a / b := by
  have ha : ((a.den : ℚ)) ≠ 0 := Nat.cast_ne_zero.mpr a.den_nz
  rcases eq_or_ne b 0 with rfl | hb
  · simp [qdiv]
  · have hbn : (b.num : ℚ) ≠ 0 := by exact_mod_cast Rat.num_ne_zero.mpr hb
    unfold qdiv
    rw [Rat.divInt_eq_div]
    push_cast
    rw [div_eq_div_iff (mul_ne_zero ha hbn) hb, num_eq_mul_den a, num_eq_mul_den b]
    ring

theorem qpow_eq_pow (a : ℚ) : ∀ n, qpow a n = a ^ n
  | 0 => by simp [qpow]
  | n + 1 => by rw [qpow, qmul_eq, qpow_eq_pow a n, pow_succ]

theorem qabs_eq_abs (d : ℚ) : qabs d = |d| := by
  unfold qabs
  rcases lt_or_le d 0 with h | h
  · rw [if_pos h, qneg_eq, abs_of_neg h]
  · rw [if_neg (not_lt.mpr h), abs_of_nonneg h]

/-- The two-branch recurrence of combinations with replacement. -/
theorem cwr_succ_cons (n : Nat) (x : α) (xs : List α) :
    cwr (n + 1) (x :: xs) = (cwr n (x :: xs)).map (x :: ·) ++ cwr (n + 1) xs := by
  simp [cwr, List.tails]

theorem cwr_succ_nil (n : Nat) : cwr (n + 1) ([] : List α) = [] := by
  simp [cwr, List.tails]

/-! ## Lemmas about the merge step of `Molecule.parse` -/

theorem addUnit_labels_nodup (data : List MUnit) (u : ParsedUnit)
    (h : (data.map (·.label)).Nodup) : ((addUnit data u).map (·.label)).Nodup := by
  unfold addUnit
  dsimp only
  split
  · next _ =>
    have heq : (data.map (fun d =>
        if d.label = u.atomicMass ++ u.element then
          { d with count := d.count + u.count.getD 1 } else d)).map (·.label)
        = data.map (·.label) := by
      rw [List.map_map]
      apply List.map_congr_left
      intro d _
      by_cases hd : d.label = u.atomicMass ++ u.element <;> simp [hd]
    rw [heq]
    exact h
  · next hany =>
    rw [List.map_append, List.map_cons, List.map_nil, List.nodup_append]
    refine ⟨h, List.nodup_singleton _, ?_⟩
    intro a ha hb
    rw [List.mem_singleton] at hb
    subst hb
    rcases List.mem_map.mp ha with ⟨d, hd, hdl⟩
    have : data.any (·.label = u.atomicMass ++ u.element) = true :=
      List.any_eq_true.mpr ⟨d, hd, by simp [hdl]⟩
    simp [this] at hany

theorem mergeUnits_labels_nodup (us : List ParsedUnit) :
    ((mergeUnits us).map (·.label)).Nodup := by
  suffices h : ∀ data : List MUnit, (data.map (·.label)).Nodup →
      ((us.foldl addUnit data).map (·.label)).Nodup by
    exact h [] (by simp)
  induction us with
  | nil => intro data h; simpa using h
  | cons u us ih =>
    intro data h
    simpa using ih (addUnit data u) (addUnit_labels_nodup data u h)

theorem sortedMerge_labels_nodup (us : List ParsedUnit) :
    ((sortedMerge us).map (·.label)).Nodup := by
  unfold sortedMerge
  exact ((List.perm_insertionSort (fun a b => pyStrLe a.label b.label = true)
    (mergeUnits us)).map (·.label)).nodup_iff.mpr (mergeUnits_labels_nodup us)

/-! ## Error classification -/

theorem resolveUnit_error {T : List IsoRow} {d : MUnit} {e : Err}
    (h : resolveUnit T d = .error e) : e = .indexError ∨ e = .valueError := by
  unfold resolveUnit at h
  repeat' split at h
  all_goals simp_all

theorem resolveUnits_error {T : List IsoRow} :
    ∀ {ds : List MUnit} {e : Err}, resolveUnits T ds = .error e →
      e = .indexError ∨ e = .valueError := by
  intro ds
  induction ds with
  | nil => intro e h; simp [resolveUnits] at h
  | cons d ds ih =>
    intro e h
    unfold resolveUnits at h
    split at h
    · next heq => injection h with h'; exact h' ▸ resolveUnit_error heq
    · split at h
      · next heq => injection h with h'; exact h' ▸ ih heq
      · simp at h

theorem lookupRows_error {T : List IsoRow} :
    ∀ {is : List String} {e : Err}, lookupRows T is = .error e → e = .indexError := by
  intro is
  induction is with
  | nil => intro e h; simp [lookupRows] at h
  | cons i is ih =>
    intro e h
    unfold lookupRows at h
    split at h
    · injection h with h'; exact h'.symm
    · split at h
      · next heq => injection h with h'; exact h' ▸ ih heq
      · simp at h

theorem parse_error {T : List IsoRow} {s : String} {e : Err}
    (h : Molecule.parse T s = .error e) :
    e = .parseException ∨ e = .indexError ∨ e = .valueError := by
  unfold Molecule.parse at h
  dsimp only at h
  split at h
  · simp at h
  · split at h
    · injection h with h'; exact Or.inl h'.symm
    · split at h
      · next heq => injection h with h'; exact Or.inr (h' ▸ resolveUnits_error heq)
      · split at h
        · next heq => injection h with h'; exact Or.inr (Or.inl (h' ▸ lookupRows_error heq))
        · simp at h

theorem relative_abundance_error {T : List IsoRow} {m : Molecule} {e : Err}
    (h : relative_abundance T m = .error e) : e = .valueError := by
  unfold relative_abundance at h
  dsimp only at h
  split at h
  · injection h with h'; exact h'.symm
  · simp at h

theorem styleTemplate_error {o : FormulaOpts} {e : Err}
    (h : styleTemplate o = .error e) : e = .valueError := by
  unfold styleTemplate at h
  repeat' split at h
  all_goals simp_all

theorem formula_error {T : List IsoRow} {m : Molecule} {o : FormulaOpts} {e : Err}
    (h : Molecule.formula T m o = .error e) : e = .valueError := by
  unfold Molecule.formula at h
  dsimp only at h
  split at h
  · next heq => injection h with h'; exact h' ▸ styleTemplate_error heq
  · simp at h

theorem mk_molecule_error {T : List IsoRow} {s : String} {e : Err}
    (h : mk_molecule T s = .error e) :
    e = .parseException ∨ e = .indexError ∨ e = .valueError := by
  unfold mk_molecule at h
  split at h
  · next heq => injection h with h'; exact h' ▸ parse_error heq
  · split at h
    · next heq =>
      injection h with h'
      exact Or.inr (Or.inr (h' ▸ relative_abundance_error heq))
    · split at h
      · next heq =>
        injection h with h'
        exact Or.inr (Or.inr (h' ▸ formula_error heq))
      · simp at h

theorem parse_pe_iff (T : List IsoRow) (s : String) :
    Molecule.parse T s = .error .parseException ↔
      s ≠ "" ∧ grammarParse (pyStrip s.toList) = none := by
  unfold Molecule.parse
  dsimp only
  split
  · next hs => simp [hs]
  · next hs =>
    split
    · next hg => exact iff_of_true rfl ⟨hs, hg⟩
    · next us ch hg =>
      constructor
      · intro h
        exfalso
        split at h
        · next heq =>
          injection h with h'
          rcases resolveUnits_error heq with h1 | h1 <;> simp [h1] at h'
        · split at h
          · next heq =>
            injection h with h'
            have := lookupRows_error heq
            simp [this] at h'
          · simp at h
      · intro hc
        have h2 := hc.2
        rw [hg] at h2
        simp at h2

/-! ## Claims -/

set_option maxRecDepth 4000

/-- C1: the multinomial abundance model.  The worked examples hold: the
composition 16O×2 + 18O has abundance `3!/(2!·1!) · p16² · p18` and 16O×3 has
`p16³`.  The universal statement fails: `relative_abundance` assigns
`self.counts` positionally to the table-ordered selected rows, so for
"13C H2" (composition 13C×1, 1H×2, whose sorted-label order differs from the
table row order) the code pairs the count 2 with 13C and the count 1 with 1H
and returns `p(1H)·p(13C)²`, while the claimed (and code-documented)
multinomial value, computed by `spec_abundance`, is `p(1H)²·p(13C)`. -/
theorem C1_multinomial_abundance :
    (mk_molecule periodic_table "16O2 18O").map (·.abundance)
      = .ok (3 * (9976 / 10000 : ℚ) ^ 2 * (205 / 100000)) ∧
    (mk_molecule periodic_table "16O3").map (·.abundance)
      = .ok ((9976 / 10000 : ℚ) ^ 3) ∧
    (Molecule.parse periodic_table "13C H2").map (fun m => m.isotopes.zip m.counts)
      = .ok [("13C", 1), ("1H", 2)] ∧
    (mk_molecule periodic_table "13C H2").map (·.abundance)
      = .ok ((99988 / 100000 : ℚ) * (107 / 10000) ^ 2) ∧
    spec_abundance periodic_table [("13C", 1), ("1H", 2)]
      = (99988 / 100000 : ℚ) ^ 2 * (107 / 10000) ∧
    (99988 / 100000 : ℚ) * (107 / 10000) ^ 2
      ≠ (99988 / 100000 : ℚ) ^ 2 * (107 / 10000) := by
  have h1 : (mk_molecule periodic_table "16O2 18O").map (·.abundance)
      = .ok (mkRat 191266107 31250000000) := by decide
  have h2 : (mk_molecule periodic_table "16O3").map (·.abundance)
      = .ok (mkRat 1939096223 1953125000) := by decide
  have h4 : (mk_molecule periodic_table "13C H2").map (·.abundance)
      = .ok (mkRat 286190653 2500000000000) := by decide
  have h5 : spec_abundance periodic_table [("13C", 1), ("1H", 2)]
      = mkRat 66858950963 6250000000000 := by decide
  refine ⟨h1.trans (congrArg Except.ok ?_), h2.trans (congrArg Except.ok ?_),
    by decide, h4.trans (congrArg Except.ok ?_),
    h5.trans ?_, by norm_num⟩
  · rw [Rat.mkRat_eq_div]; norm_num
  · rw [Rat.mkRat_eq_div]; norm_num
  · rw [Rat.mkRat_eq_div]; norm_num
  · rw [Rat.mkRat_eq_div]; norm_num

/-- C2 counterexample: the claim says repeated mentions of the same isotope
are merged whether the mass number is explicit or implied, so every isotope
key occurs at most once; but parsing "12C C" (12C written once explicitly and
once implicitly) yields the isotope key "12C" twice. -/
theorem C2_counterexample :
    (Molecule.parse periodic_table "12C C").map (·.isotopes)
      = .ok ["12C", "12C"] := by decide

/-- C2 (amended): merging happens only at the level of the textual label
(the atomic-mass token concatenated with the element token): labels are
pairwise distinct in every merged composition, and "C H H H H" parses to the
same composition as "CH4", one (1H, 4) entry; but a mention with an explicit
mass number and a mention of the same isotope without one are not merged
(see the counterexample), and such a composition subsequently makes the
`Molecule` constructor fail with a `ValueError` in `relative_abundance`. -/
theorem C2_merge_by_label :
    (∀ us : List ParsedUnit, ((sortedMerge us).map (·.label)).Nodup) ∧
    (Molecule.parse periodic_table "C H H H H").map (fun m => m.isotopes.zip m.counts)
      = .ok [("12C", 1), ("1H", 4)] ∧
    (Molecule.parse periodic_table "CH4").map (fun m => m.isotopes.zip m.counts)
      = .ok [("12C", 1), ("1H", 4)] ∧
    mk_molecule periodic_table "12C C" = .error .valueError :=
  ⟨sortedMerge_labels_nodup, by decide, by decide, by decide⟩

/-- Witness for C2: the universally quantified part of `C2_merge_by_label`
instantiated at the parsed units of "12C C". -/
theorem C2_witness :
    ((sortedMerge [ParsedUnit.mk "12" "C" none, ParsedUnit.mk "" "C" none]).map
      (·.label)).Nodup :=
  C2_merge_by_label.1 [ParsedUnit.mk "12" "C" none, ParsedUnit.mk "" "C" none]

/-- C7 counterexample: the claim says a parse failure raises a `FormatError`;
but for the unknown element "Xy" (case (c)) the constructor fails with an
uninformative `IndexError` from the empty table selection, and no
`FormatError` exists in the current molecule module at all. -/
theorem C7_counterexample :
    mk_molecule periodic_table "Xy" = .error .indexError ∧
      Err.indexError ≠ Err.formatError := ⟨by decide, by decide⟩

/-- C7 (amended): constructing a `Molecule` fails with a pyparsing
`ParseException` exactly when the input is truthy and neither grammar parses
it in full; unknown elements (case (c), e.g. "Zz") and unknown explicit
isotopes (case (d), e.g. "99O") fail with an `IndexError`; a non-numeric
count token (case (b)) cannot arise because both grammars only admit digit
runs as counts; no failure is a `FormatError` (that class exists only in the
legacy masstable module).  Unmerged duplicate isotope keys fail with a
`ValueError`. -/
theorem C7_error_kinds :
    (∀ (T : List IsoRow) (s : String) (e : Err),
        mk_molecule T s = .error e → e ≠ .formatError) ∧
    (∀ (T : List IsoRow) (s : String),
        Molecule.parse T s = .error .parseException ↔
          s ≠ "" ∧ grammarParse (pyStrip s.toList) = none) ∧
    mk_molecule periodic_table "Zz" = .error .indexError ∧
    mk_molecule periodic_table "99O" = .error .indexError := by
  refine ⟨?_, parse_pe_iff, by decide, by decide⟩
  intro T s e h
  rcases mk_molecule_error h with h1 | h1 | h1 <;> simp [h1]

/-- C7 witness: the classification applied to the concrete input "++", on
which both grammars fail. -/
theorem C7_witness :
    mk_molecule periodic_table "++" = .error .parseException ∧
      Err.parseException ≠ Err.formatError :=
  ⟨by decide, C7_error_kinds.1 periodic_table "++" .parseException (by decide)⟩

/-- C9 counterexample: the claim says constructing a `Molecule` from an empty
input must fail; but `Molecule('')` returns early from `parse` and yields a
degenerate molecule with mass 0 and abundance 1. -/
theorem C9_counterexample :
    (mk_molecule periodic_table "").map (fun m => (m.mass, m.abundance))
      = .ok (0, 1) := by decide

/-- C9 (amended): a whitespace-only (nonempty) input is rejected with a
pyparsing `ParseException`, but the empty string is accepted because of the
`if not self.input: return` early exit, producing a degenerate molecule with
mass 0, abundance 1, no isotopes and an empty rendered formula. -/
theorem C9_empty_input :
    mk_molecule periodic_table "   " = .error .parseException ∧
    (mk_molecule periodic_table "").map
        (fun m => (m.mass, m.abundance, m.isotopes, m.molecular_formula))
      = .ok (0, 1, [], "") := ⟨by decide, by decide⟩

theorem enrichRow_ok_target {T : List IsoRow} {style : String} {r : Row2}
    {x : IRow} (h : enrichRow T style r = .ok x) : x.target = false := by
  unfold enrichRow at h
  split at h
  · simp at h
  · split at h
    · simp at h
    · injection h with h'
      rw [← h']

theorem enrichRows_ok_target {T : List IsoRow} {style : String} :
    ∀ {rs : List Row2} {out : List IRow}, enrichRows T style rs = .ok out →
      ∀ x ∈ out, x.target = false := by
  intro rs
  induction rs with
  | nil =>
    intro out h x hx
    unfold enrichRows at h
    injection h with h'
    rw [← h'] at hx
    simp at hx
  | cons r rs ih =>
    intro out h x hx
    unfold enrichRows at h
    split at h
    · simp at h
    · split at h
      · simp at h
      · next heq =>
        injection h with h'
        rw [← h'] at hx
        rcases List.mem_cons.mp hx with rfl | hx'
        · exact enrichRow_ok_target (by assumption)
        · exact ih heq x hx'

/-- C4 counterexample: the claim says the extra target row is appended only
for a formula target; but for the numeric target "16.0" the returned table
still ends with a row flagged `target = true` carrying the number string. -/
theorem C4_counterexample :
    (interference periodic_table ["O"] (some "16.0") (mkRat 1 10) 1 [1] "o" "plain").map
        (fun rows => rows.map (fun r => (r.molecule, r.target)))
      = .ok [(some "O", false), (some "16.0", true)] := by decide

/-- C4 (amended): `interference` appends the extra row unconditionally —
whether the target is a formula, a number, or absent, every successful result
ends with exactly one row flagged `target = true`, with mass/charge
difference 0 and infinite resolving power, and every other row is flagged
`target = false`. -/
theorem C4_target_row_always (T : List IsoRow) (atoms : List String)
    (target : TargetArg) (tr : ℚ) (maxsize : Nat) (charge : List Int)
    (chargesign style : String) (rows : List IRow)
    (h : interference T atoms target tr maxsize charge chargesign style = .ok rows) :
    ∃ r rest, rows = rest ++ [r] ∧ r.target = true ∧ r.diff = 0 ∧ r.mrp = ⊤ ∧
      ∀ x ∈ rest, x.target = false := by
  unfold interference at h
  dsimp only at h
  split at h
  · simp at h
  · split at h
    · simp at h
    · split at h
      · simp at h
      · next heq =>
        injection h with h'
        exact ⟨_, _, h'.symm, rfl, rfl, rfl, enrichRows_ok_target heq⟩

/-- C4 witness: the amended statement applied to a search with no sample
atoms and no target, whose whole result table is the single appended row. -/
theorem C4_witness :
    ∃ r rest,
      [({ molecule := none, charge := 0, mz := 0, diff := 0, mrp := ⊤,
          probability := 0, target := true } : IRow)] = rest ++ [r] ∧
      r.target = true ∧ r.diff = 0 ∧ r.mrp = ⊤ ∧ ∀ x ∈ rest, x.target = false :=
  C4_target_row_always periodic_table [] none (mkRat 3 10) 5 [1] "-" "plain" _
    (by decide)

/-- C5: the mass-to-charge computation.  For a nonzero charge `c` the
expanded row reports `(M − c·mₑ)/c` under sign `'+'` and `(M + c·mₑ)/c`
under sign `'-'` (the code divides by `c` first and then applies the
single-electron correction, which is the same value); for sign `'o'`/`'0'`
the whole expansion maps every candidate to a charge-0 row that keeps the
neutral mass unchanged, with no correction and no division. -/
theorem C5_mass_to_charge :
    (∀ (ch : Int) (r : Row0), ch ≠ 0 →
      (chargedRow "+" ch r).mz = (r.mz - ch * mass_electron) / ch ∧
      (chargedRow "-" ch r).mz = (r.mz + ch * mass_electron) / ch ∧
      (chargedRow "+" ch r).charge = ch ∧ (chargedRow "-" ch r).charge = ch) ∧
    (∀ (sign : String) (charge : List Int) (rows : List Row0),
      sign = "o" ∨ sign = "0" →
      chargeExpand sign charge rows = rows.map zeroChargeRow) ∧
    (∀ r : Row0, (zeroChargeRow r).charge = 0 ∧ (zeroChargeRow r).mz = r.mz) := by
  refine ⟨?_, ?_, fun r => ⟨rfl, rfl⟩⟩
  · intro ch r hch
    have hc : ((ch : ℚ)) ≠ 0 := Int.cast_ne_zero.mpr hch
    refine ⟨?_, ?_, rfl, rfl⟩
    · show qsub (qdiv r.mz (ch : ℚ)) mass_electron = (r.mz - ch * mass_electron) / ch
      rw [qsub_eq, qdiv_eq]
      field_simp
      try ring
    · show qadd (qdiv r.mz (ch : ℚ)) mass_electron = (r.mz + ch * mass_electron) / ch
      rw [qadd_eq, qdiv_eq]
      field_simp
      try ring
  · intro sign charge rows hsign
    rcases hsign with rfl | rfl <;> simp [chargeExpand]

/-- C5 witness: the charge formulas applied at charge 2 and a concrete
candidate of neutral mass 16. -/
theorem C5_witness :
    (chargedRow "+" 2 { molecule := "16O", mz := 16 }).mz
        = (16 - 2 * mass_electron) / 2 ∧
    (chargedRow "-" 2 { molecule := "16O", mz := 16 }).mz
        = (16 + 2 * mass_electron) / 2 :=
  ⟨(C5_mass_to_charge.1 2 { molecule := "16O", mz := 16 } (by decide)).1,
   (C5_mass_to_charge.1 2 { molecule := "16O", mz := 16 } (by decide)).2.1⟩

/-- C6: the total mass of every successfully parsed molecule is the sum of
isotope exact mass times count over its entries (the masses list being
exactly the table lookup of its isotope keys), decreased by
`charge · electron_mass` for sign `'+'`, increased by it for sign `'-'`, and
uncorrected otherwise; the correction is applied exactly once, inside
`parse`. -/
theorem C6_mass_formula (T : List IsoRow) (s : String) (m : Molecule)
    (h : Molecule.parse T s = .ok m) :
    ∃ rows : List IsoRow, lookupRows T m.isotopes = .ok rows ∧
      m.masses = rows.map (·.mass) ∧
      m.mass = sumProd (rows.map (·.mass)) m.counts
        + (if m.chargesign = "+" then -(mass_electron * m.charge)
           else if m.chargesign = "-" then mass_electron * m.charge else 0) := by
  unfold Molecule.parse at h
  dsimp only at h
  split at h
  · injection h with h'
    rw [← h']
    refine ⟨[], rfl, rfl, ?_⟩
    simp [Molecule.init, sumProd, qsum]
  · split at h
    · simp at h
    · split at h
      · simp at h
      · split at h
        · simp at h
        · next rows heq =>
          injection h with h'
          rw [← h']
          refine ⟨rows, heq, rfl, ?_⟩
          dsimp only
          split_ifs <;>
            first
              | (rw [qsub_eq, qmul_eq]; try push_cast; ring)
              | (rw [qadd_eq, qmul_eq]; try push_cast; ring)
              | ring

/-- A concrete parsed molecule: the result of `Molecule.parse` on "CH4 2+". -/
def c6Mol : Molecule :=
  { input := "CH4 2+", mass := mkRat 8015101420091 500000000000, abundance := 1,
    charge := 2, chargesign := "+", elements := ["C", "H"],
    isotopes := ["12C", "1H"], counts := [1, 4], atomic_numbers := [6, 1],
    atomic_masses := [12, 1], masses := [12, mkRat 10078250 10000000],
    abundances := [mkRat 9893 10000, mkRat 99988 100000],
    molecular_formula := "" }

/-- C6 witness: the mass formula applied to the parsed ion "CH4 2+". -/
theorem C6_witness :
    ∃ rows : List IsoRow, lookupRows periodic_table c6Mol.isotopes = .ok rows ∧
      c6Mol.masses = rows.map (·.mass) ∧
      c6Mol.mass = sumProd (rows.map (·.mass)) c6Mol.counts
        + (if c6Mol.chargesign = "+" then -(mass_electron * c6Mol.charge)
           else if c6Mol.chargesign = "-" then mass_electron * c6Mol.charge
           else 0) :=
  C6_mass_formula periodic_table "CH4 2+" c6Mol (by decide)

/-- C10: `formula` is pure — threading the molecule state through a call
leaves every field unchanged, and a second call on the returned state
renders the byte-identical string. -/
theorem C10_formula_pure (T : List IsoRow) (m : Molecule) (o : FormulaOpts)
    (s : String) (m' : Molecule) (h : formulaS T m o = .ok (s, m')) :
    m' = m ∧ formulaS T m' o = .ok (s, m') := by
  unfold formulaS at *
  split at h
  · simp at h
  · next s0 heq =>
    injection h with h'
    injection h' with h1 h2
    subst h1
    subst h2
    exact ⟨rfl, by simp [heq]⟩

/-- A concrete constructed molecule: the result of the `Molecule`
constructor on "CH4". -/
def c10Mol : Molecule :=
  { input := "CH4", mass := mkRat 160313 10000,
    abundance := mkRat 239441776772401946197 250000000000000000000,
    charge := 0, chargesign := "", elements := ["C", "H"],
    isotopes := ["12C", "1H"], counts := [1, 4], atomic_numbers := [6, 1],
    atomic_masses := [12, 1], masses := [12, mkRat 10078250 10000000],
    abundances := [mkRat 9893 10000, mkRat 99988 100000],
    molecular_formula := "C H4" }

/-- C10 witness: rendering the constructed "CH4" molecule with the default
options leaves it unchanged and yields its plain formula. -/
theorem C10_witness :
    c10Mol = c10Mol ∧ formulaS periodic_table c10Mol {} = .ok ("C H4", c10Mol) :=
  C10_formula_pure periodic_table c10Mol {} "C H4" c10Mol (by decide)

/-- C3: the table returned by `interference` in `main.py` is not sorted by
mass/charge.  For the sample {H, C}, numeric target 8.0, tolerance 5.1,
maximum size 2, neutral charge sign, the surviving rows are, in generation
order, 12C (12), 13C (≈13.0034), 1H2H (≈3.0219), 1H12C (≈13.0078), 2H2H
(≈4.0282), followed by the appended target row at 8 — a column that is not
ascending.  (The legacy interference_calculator.py applies
`sort_values('mass/charge')`; `main.py` dropped the sort.) -/
theorem C3_output_not_sorted :
    (interference periodic_table ["H", "C"] (some "8.0") (mkRat 51 10) 2 [1] "o" "plain").map
        (fun rows => rows.map (·.mz))
      = .ok [12, mkRat 32508387 2500000, mkRat 7554817 2500000,
             mkRat 520313 40000, mkRat 10070509 2500000, 8] ∧
    ¬ List.Sorted (· ≤ ·)
        [(12 : ℚ), mkRat 32508387 2500000, mkRat 7554817 2500000,
         mkRat 520313 40000, mkRat 10070509 2500000, 8] :=
  ⟨by decide, by decide⟩

/-! ## Combinations with replacement (for C8) -/

theorem cwr_length : ∀ (n : Nat) (l c : List α), c ∈ cwr n l → c.length = n := by
  intro n
  induction n with
  | zero =>
    intro l c hc
    simp only [cwr, List.mem_singleton] at hc
    simp [hc]
  | succ k ih =>
    intro l
    induction l with
    | nil => intro c hc; rw [cwr_succ_nil] at hc; simp at hc
    | cons x xs ihl =>
      intro c hc
      rw [cwr_succ_cons] at hc
      rcases List.mem_append.mp hc with h1 | h1
      · rcases List.mem_map.mp h1 with ⟨c', hc', rfl⟩
        simp [ih _ _ hc']
      · exact ihl c h1

theorem cwr_subset :
    ∀ (n : Nat) (l c : List α), c ∈ cwr n l → ∀ x ∈ c, x ∈ l := by
  intro n
  induction n with
  | zero =>
    intro l c hc
    simp only [cwr, List.mem_singleton] at hc
    simp [hc]
  | succ k ih =>
    intro l
    induction l with
    | nil => intro c hc; rw [cwr_succ_nil] at hc; simp at hc
    | cons x xs ihl =>
      intro c hc
      rw [cwr_succ_cons] at hc
      rcases List.mem_append.mp hc with h1 | h1
      · rcases List.mem_map.mp h1 with ⟨c', hc', rfl⟩
        intro y hy
        rcases List.mem_cons.mp hy with rfl | hy'
        · exact List.mem_cons_self _ _
        · exact ih _ _ hc' y hy'
      · intro y hy
        exact List.mem_cons_of_mem _ (ihl c h1 y hy)

theorem cwr_complete [DecidableEq α] :
    ∀ (l : List α) (n : Nat) (m : Multiset α), Multiset.card m = n →
      (∀ x ∈ m, x ∈ l) → ∃ c ∈ cwr n l, (c : Multiset α) = m := by
  intro l
  induction l with
  | nil =>
    intro n m hc hs
    have hm : m = 0 := Multiset.eq_zero_of_forall_not_mem
      (fun x hx => by simpa using hs x hx)
    subst hm
    simp at hc
    subst hc
    exact ⟨[], by simp [cwr], rfl⟩
  | cons x xs ihl =>
    intro n
    induction n with
    | zero =>
      intro m hc _
      have hm : m = 0 := Multiset.card_eq_zero.mp hc
      subst hm
      exact ⟨[], by simp [cwr], rfl⟩
    | succ k ihn =>
      intro m hc hs
      by_cases hx : x ∈ m
      · have hcard : Multiset.card (m.erase x) = k := by
          rw [Multiset.card_erase_of_mem hx, hc]
          rfl
        have hsub : ∀ y ∈ m.erase x, y ∈ x :: xs :=
          fun y hy => hs y (Multiset.mem_of_mem_erase hy)
        obtain ⟨c, hcmem, hceq⟩ := ihn (m.erase x) hcard hsub
        refine ⟨x :: c, ?_, ?_⟩
        · rw [cwr_succ_cons]
          exact List.mem_append_left _ (List.mem_map_of_mem _ hcmem)
        · rw [← Multiset.cons_coe, hceq, Multiset.cons_erase hx]
      · have hsub : ∀ y ∈ m, y ∈ xs := by
          intro y hy
          rcases List.mem_cons.mp (hs y hy) with rfl | h
          · exact absurd hy hx
          · exact h
        obtain ⟨c, hcmem, hceq⟩ := ihl (k + 1) m hc hsub
        refine ⟨c, ?_, hceq⟩
        rw [cwr_succ_cons]
        exact List.mem_append_right _ hcmem

theorem cwr_multisets_nodup :
    ∀ (n : Nat) (l : List α), l.Nodup →
      ((cwr n l).map (fun c => Multiset.ofList c)).Nodup := by
  intro n
  induction n with
  | zero => intro l _; simp [cwr]
  | succ k ih =>
    intro l
    induction l with
    | nil => intro _; simp [cwr_succ_nil]
    | cons x xs ihl =>
      intro hl
      rw [cwr_succ_cons, List.map_append, List.nodup_append]
      refine ⟨?_, ihl (List.Nodup.of_cons hl), ?_⟩
      · have h1 : ((cwr k (x :: xs)).map (x :: ·)).map (fun c => Multiset.ofList c)
            = ((cwr k (x :: xs)).map (fun c => Multiset.ofList c)).map (x ::ₘ ·) := by
          rw [List.map_map, List.map_map]
          apply List.map_congr_left
          intro c _
          exact (Multiset.cons_coe x c).symm
        rw [h1]
        exact (ih (x :: xs) hl).map
          (fun a b hab => (Multiset.cons_inj_right x).mp hab)
      · intro a ha hb
        rcases List.mem_map.mp ha with ⟨c1, hc1, rfl⟩
        rcases List.mem_map.mp hc1 with ⟨c1', _, rfl⟩
        rcases List.mem_map.mp hb with ⟨c2, hc2, heq2⟩
        have hx2 : x ∈ (c2 : Multiset α) := by
          rw [heq2, ← Multiset.cons_coe]
          simp
        have : x ∈ xs :=
          cwr_subset _ _ _ hc2 x (by simpa using hx2)
        exact (List.nodup_cons.mp hl).1 this

theorem cwr_map (f : α → β) :
    ∀ (n : Nat) (l : List α), cwr n (l.map f) = (cwr n l).map (List.map f) := by
  intro n
  induction n with
  | zero => intro l; simp [cwr]
  | succ k ih =>
    intro l
    induction l with
    | nil => simp [cwr_succ_nil]
    | cons x xs ihl =>
      rw [List.map_cons, cwr_succ_cons, cwr_succ_cons, List.map_append, ← ihl]
      congr 1
      rw [← List.map_cons f x xs, ih (x :: xs), List.map_map, List.map_map]
      apply List.map_congr_left
      intro c _
      simp

theorem enumCombos_map (f : α → β) (l : List α) :
    ∀ maxsize : Nat,
      enumCombos (l.map f) maxsize = (enumCombos l maxsize).map (List.map f) := by
  intro maxsize
  induction maxsize with
  | zero => simp [enumCombos]
  | succ k ih => rw [enumCombos, enumCombos, List.map_append, ih, cwr_map]

theorem enumCombos_mem_card {l : List α} :
    ∀ {k : Nat} {c : List α}, c ∈ enumCombos l k → 1 ≤ c.length ∧ c.length ≤ k := by
  intro k
  induction k with
  | zero => intro c hc; simp [enumCombos] at hc
  | succ n ih =>
    intro c hc
    rcases List.mem_append.mp hc with h1 | h1
    · obtain ⟨ha, hb⟩ := ih h1
      exact ⟨ha, Nat.le_succ_of_le hb⟩
    · rw [cwr_length (n + 1) l c h1]
      exact ⟨Nat.succ_le_succ (Nat.zero_le n), Nat.le_refl _⟩

theorem enumCombos_mem_subset {l : List α} :
    ∀ {k : Nat} {c : List α}, c ∈ enumCombos l k → ∀ x ∈ c, x ∈ l := by
  intro k
  induction k with
  | zero => intro c hc; simp [enumCombos] at hc
  | succ n ih =>
    intro c hc
    rcases List.mem_append.mp hc with h1 | h1
    · exact ih h1
    · exact cwr_subset (n + 1) l c h1

theorem enumCombos_multisets_nodup {l : List α} (hl : l.Nodup) :
    ∀ k : Nat, ((enumCombos l k).map (fun c => Multiset.ofList c)).Nodup := by
  intro k
  induction k with
  | zero => simp [enumCombos]
  | succ n ih =>
    rw [enumCombos, List.map_append, List.nodup_append]
    refine ⟨ih, cwr_multisets_nodup (n + 1) l hl, ?_⟩
    intro a ha hb
    rcases List.mem_map.mp ha with ⟨c1, hc1, rfl⟩
    rcases List.mem_map.mp hb with ⟨c2, hc2, heq2⟩
    have h1 : Multiset.card (c1 : Multiset α) ≤ n := by
      rw [Multiset.coe_card]
      exact (enumCombos_mem_card hc1).2
    have h2 : Multiset.card (c1 : Multiset α) = n + 1 := by
      rw [← heq2, Multiset.coe_card]
      exact cwr_length (n + 1) l c2 hc2
    omega

theorem enumCombos_mem_iff [DecidableEq α] {l : List α} (hl : l.Nodup) (k : Nat)
    (m : Multiset α) :
    m ∈ (enumCombos l k).map (fun c => Multiset.ofList c) ↔
      1 ≤ Multiset.card m ∧ Multiset.card m ≤ k ∧ ∀ x ∈ m, x ∈ l := by
  induction k with
  | zero =>
    simp only [enumCombos, List.map_nil, List.not_mem_nil, false_iff]
    rintro ⟨h1, h2, -⟩
    omega
  | succ n ih =>
    rw [enumCombos, List.map_append, List.mem_append]
    constructor
    · rintro (h1 | h1)
      · obtain ⟨ha, hb, hm⟩ := ih.mp h1
        exact ⟨ha, Nat.le_succ_of_le hb, hm⟩
      · rcases List.mem_map.mp h1 with ⟨c, hc, rfl⟩
        have hlen := cwr_length (n + 1) l c hc
        rw [Multiset.coe_card, hlen]
        exact ⟨Nat.succ_le_succ (Nat.zero_le n), Nat.le_refl _,
          fun x hx => cwr_subset (n + 1) l c hc x (by simpa using hx)⟩
    · rintro ⟨h1, h2, hm⟩
      rcases Nat.lt_or_ge (Multiset.card m) (n + 1) with hlt | hge
      · exact Or.inl (ih.mpr ⟨h1, Nat.lt_succ_iff.mp hlt, hm⟩)
      · have hcard : Multiset.card m = n + 1 := Nat.le_antisymm h2 hge
        obtain ⟨c, hc, hceq⟩ := cwr_complete l (n + 1) m hcard hm
        exact Or.inr (List.mem_map.mpr ⟨c, hc, hceq⟩)

/-- C8: the candidate enumeration.  The isotope strings of the enumerated
row combinations are exactly the combinations with replacement over the
isotope pool of the sample elements (the `picked_atoms['isotope']` column);
and provided the pool has no duplicate keys, the enumeration for sizes 1 to
`maxsize` contains each multiset drawn with replacement from the pool
exactly once: the multiset image has no duplicates, and a multiset occurs in
it precisely when its size is between 1 and `maxsize` and all its members
come from the pool. -/
theorem C8_enumeration (T : List IsoRow) (atoms : List String) (maxsize : Nat)
    (hpool : (poolIsotopes T atoms).Nodup) :
    (enumCombos (pickedAtoms T atoms) maxsize).map (List.map (·.isotope))
        = enumCombos (poolIsotopes T atoms) maxsize ∧
    ((enumCombos (poolIsotopes T atoms) maxsize).map
        (fun c => Multiset.ofList c)).Nodup ∧
    ∀ m : Multiset String,
      m ∈ (enumCombos (poolIsotopes T atoms) maxsize).map
            (fun c => Multiset.ofList c) ↔
        1 ≤ Multiset.card m ∧ Multiset.card m ≤ maxsize ∧
          ∀ i ∈ m, i ∈ poolIsotopes T atoms :=
  ⟨(enumCombos_map (·.isotope) (pickedAtoms T atoms) maxsize).symm,
   enumCombos_multisets_nodup hpool maxsize,
   fun m => enumCombos_mem_iff hpool maxsize m⟩

/-- C8 witness: the enumeration over the oxygen pool up to size 2 lists each
isotope multiset once, and contains the multiset {16O, 18O}. -/
theorem C8_witness :
    ((enumCombos (poolIsotopes periodic_table ["O"]) 2).map
        (fun c => Multiset.ofList c)).Nodup ∧
    Multiset.ofList ["16O", "18O"] ∈
      (enumCombos (poolIsotopes periodic_table ["O"]) 2).map
        (fun c => Multiset.ofList c) :=
  ⟨(C8_enumeration periodic_table ["O"] 2 (by decide)).2.1,
   ((C8_enumeration periodic_table ["O"] 2 (by decide)).2.2 _).mpr (by decide)⟩

end IC
